import Mathlib

/-!
Shallow embedding of the `endio` crate's serialization core
(`src/endian.rs`, `src/serialize.rs`).

Bytes are modelled as `Nat` values below 256.  A sink (`std::io::Write`)
is modelled as `Writer`: a byte buffer together with an optional budget of
remaining successful write operations — `none` means every `write_all`
succeeds (e.g. a `Vec<u8>` sink), `some n` means the next `n` write
operations succeed and every one after that reports an I/O error.  The
outcome of a serialization is `WResult`: `ok`/`err` mirror
`io::Result<()>` (the writer's state rides along, as the Rust writer is
only borrowed), and `panic` models the `unreachable!()` abort, which in
Rust bypasses the `Result` channel entirely.
-/

namespace Endio

/-- State of a byte sink: bytes written so far, plus an optional budget of
remaining successful write operations (`none` = writes always succeed). -/
structure Writer where
  buf : List Nat
  budget : Option Nat
deriving Repr, DecidableEq

/-- Outcome of a serialization call: `io::Result<()>` (`ok`/`err`, carrying the
writer state since the Rust writer is mutably borrowed, not consumed), or a
`panic` from `unreachable!()`, which never surfaces as an `Err`. -/
inductive WResult where
  | ok (w : Writer)
  | err (w : Writer)
  | panic
deriving Repr, DecidableEq

/-- Models `std::io::Write::write_all`: appends the bytes and succeeds while the
budget allows; once the budget is exhausted it reports an I/O error and
writes nothing. -/
def Writer.write_all (w : Writer) (bs : List Nat) : WResult :=
  match w.budget with
  | none => WResult.ok ⟨w.buf ++ bs, none⟩
  | some 0 => WResult.err w
  | some (n + 1) => WResult.ok ⟨w.buf ++ bs, some n⟩

/-- The `Serialize<E, W>` trait (serialize.rs lines 104–120): three methods
with defaults.  `serialize` defaults to `unreachable!()` (a panic);
`serialize_be` and `serialize_le` default to calling `serialize`. -/
structure SerializeImpl (α : Type) where
  serialize : α → Writer → WResult := fun _ _ => WResult.panic
  serialize_be : α → Writer → WResult := serialize
  serialize_le : α → Writer → WResult := serialize

/-- The sealed `Endianness` tag set (endian.rs): exactly `BigEndian` and
`LittleEndian`; the `private::Sealed` supertrait makes the set closed, which
the closed inductive captures. -/
inductive Endianness where
  | big
  | little
deriving Repr, DecidableEq

/-- Dispatch of `Endianness::serialize` (endian.rs lines 29–47): the `BigEndian`
impl calls `value.serialize_be(writer)`, the `LittleEndian` impl calls
`value.serialize_le(writer)`. -/
def Endianness.serialize {α : Type} (e : Endianness) (impl : SerializeImpl α)
    (v : α) (w : Writer) : WResult :=
  match e with
  | Endianness.big => impl.serialize_be v w
  | Endianness.little => impl.serialize_le v w

/-- Rust `uN::to_le_bytes` for an `n`-byte integer: least-significant byte
first. -/
def toBytesLE : Nat → Nat → List Nat
  | 0, _ => []
  | n + 1, v => v % 256 :: toBytesLE n (v / 256)

/-- Rust `uN::to_be_bytes` for an `n`-byte integer: most-significant byte
first. -/
def toBytesBE : Nat → Nat → List Nat
  | 0, _ => []
  | n + 1, v => toBytesBE n (v / 256) ++ [v % 256]

/-- Two's-complement reinterpretation of an `n`-byte signed integer as the
same-width unsigned integer (Rust `iN as uN` / the bit pattern that
`iN::to_be_bytes` serializes). -/
def toUnsigned (n : Nat) (v : Int) : Nat := (v % ((2 : Int) ^ (8 * n))).toNat

/-- The `impl Serialize for bool` (serialize.rs lines 141–145): writes the single
byte `(self as u8)`, overriding only the order-agnostic `serialize`. -/
def boolImpl : SerializeImpl Bool where
  serialize := fun v w => w.write_all [if v then 1 else 0]

/-- The `impl Serialize for u8` (serialize.rs lines 147–151): writes the raw byte
(`to_ne_bytes` of a one-byte value), overriding only `serialize`.  A `u8`
value is a `Nat` below 256; the `% 256` makes the model total. -/
def u8Impl : SerializeImpl Nat where
  serialize := fun v w => w.write_all [v % 256]

/-- The `impl Serialize for i8` (serialize.rs lines 153–157): writes the raw
two's-complement byte, overriding only `serialize`. -/
def i8Impl : SerializeImpl Int where
  serialize := fun v w => w.write_all [toUnsigned 1 v]

/-- The `impl_int!` expansion for the unsigned multi-byte integers (serialize.rs lines
159–169): overrides only `serialize_be` (via `to_be_bytes`) and
`serialize_le` (via `to_le_bytes`), leaving the order-agnostic `serialize`
at its unreachable default. -/
def uintImpl (numBytes : Nat) : SerializeImpl Nat where
  serialize_be := fun v w => w.write_all (toBytesBE numBytes v)
  serialize_le := fun v w => w.write_all (toBytesLE numBytes v)

/-- The `impl_int!` expansion for the signed multi-byte integers: `iN::to_be_bytes` /
`iN::to_le_bytes` serialize the two's-complement bit pattern. -/
def intImpl (numBytes : Nat) : SerializeImpl Int where
  serialize_be := fun v w => w.write_all (toBytesBE numBytes (toUnsigned numBytes v))
  serialize_le := fun v w => w.write_all (toBytesLE numBytes (toUnsigned numBytes v))

/-- Instantiation `impl_int!(u16)` (serialize.rs line 197). -/
def u16Impl : SerializeImpl Nat := uintImpl 2
/-- Instantiation `impl_int!(u32)` (serialize.rs line 198). -/
def u32Impl : SerializeImpl Nat := uintImpl 4
/-- Instantiation `impl_int!(u64)` (serialize.rs line 199). -/
def u64Impl : SerializeImpl Nat := uintImpl 8
/-- Instantiation `impl_int!(u128)` (serialize.rs line 200). -/
def u128Impl : SerializeImpl Nat := uintImpl 16
/-- Instantiation `impl_int!(i16)` (serialize.rs line 201). -/
def i16Impl : SerializeImpl Int := intImpl 2
/-- Instantiation `impl_int!(i32)` (serialize.rs line 202). -/
def i32Impl : SerializeImpl Int := intImpl 4
/-- Instantiation `impl_int!(i64)` (serialize.rs line 203). -/
def i64Impl : SerializeImpl Int := intImpl 8
/-- Instantiation `impl_int!(i128)` (serialize.rs line 204). -/
def i128Impl : SerializeImpl Int := intImpl 16

/-- Body of `impl Serialize for &[S]` (serialize.rs lines 124–131): the
`for elem in self { writer.ewrite(*elem)?; } Ok(())` loop.  `ewrite`
dispatches through `E::serialize`, and `?` returns the first failure. -/
def serializeList {α : Type} (e : Endianness) (impl : SerializeImpl α) :
    List α → Writer → WResult
  | [], w => WResult.ok w
  | x :: xs, w =>
    match e.serialize impl x w with
    | WResult.ok w2 => serializeList e impl xs w2
    | r => r

/-- The `impl Serialize for &[S]`: overrides only the order-agnostic `serialize`
with the element loop; the generic order parameter `E` of the Rust impl is
the `e` argument. -/
def sliceImpl {α : Type} (e : Endianness) (impl : SerializeImpl α) :
    SerializeImpl (List α) where
  serialize := fun xs w => serializeList e impl xs w

/-- The `impl Serialize for &Vec<S>` (serialize.rs lines 134–138): overrides only
`serialize`, which delegates to the slice impl via
`writer.ewrite(self.as_slice())`. -/
def vecImpl {α : Type} (e : Endianness) (impl : SerializeImpl α) :
    SerializeImpl (List α) where
  serialize := fun xs w => e.serialize (sliceImpl e impl) xs w

/-- The `impl Serialize for f32` (serialize.rs lines 206–210): overrides only
`serialize`, which delegates the value's bit pattern (`self.to_bits()`, a
`u32`, here the value of the model) to the `u32` encoding via `ewrite`. -/
def f32Impl (e : Endianness) : SerializeImpl Nat where
  serialize := fun bits w => e.serialize (uintImpl 4) bits w

/-- The `impl Serialize for f64` (serialize.rs lines 212–216): overrides only
`serialize`, delegating `self.to_bits()` (a `u64`) to the `u64` encoding. -/
def f64Impl (e : Endianness) : SerializeImpl Nat where
  serialize := fun bits w => e.serialize (uintImpl 8) bits w

/-- Nearest integer to `num / den`, ties to even (IEEE-754 default
rounding). -/
def roundNearestEven (num den : Nat) : Nat :=
  let q := num / den
  let r := num % den
  if 2 * r < den then q
  else if den < 2 * r then q + 1
  else if q % 2 = 0 then q else q + 1

/-- Fuel-driven search for the largest `e` with `den * 2 ^ e ≤ num`. -/
def floorLog2Aux : Nat → Nat → Nat → Nat
  | 0, _, _ => 0
  | fuel + 1, num, den => if den * 2 ≤ num then floorLog2Aux fuel num (den * 2) + 1 else 0

/-- Largest `e` with `den * 2 ^ e ≤ num`, for `den ≤ num` and `0 < den`. -/
def floorLog2 (num den : Nat) : Nat := floorLog2Aux num num den

/-- IEEE-754 binary encoding of the positive rational `num / den` in the
normal range `1 ≤ num / den`, rounded to nearest (ties to even), with
`fracBits` fraction bits and exponent bias `expBias`.  This models the
conversion Rust performs on a decimal floating-point literal, so that the
spec's decimal constants can be tied to the bit patterns the code writes. -/
def floatBits (fracBits expBias num den : Nat) : Nat :=
  let e := floorLog2 num den
  let m := roundNearestEven (num * 2 ^ fracBits) (den * 2 ^ e)
  if m = 2 ^ (fracBits + 1) then (e + 1 + expBias) * 2 ^ fracBits
  else (e + expBias) * 2 ^ fracBits + (m - 2 ^ fracBits)

/-- The `f32` bit pattern (`f32::to_bits`) of a positive decimal literal given
as `num / den`. -/
def f32bits (num den : Nat) : Nat := floatBits 23 127 num den

/-- The `f64` bit pattern (`f64::to_bits`) of a positive decimal literal given
as `num / den`. -/
def f64bits (num den : Nat) : Nat := floatBits 52 1023 num den

/-- Helper: the little-endian encoding has exactly the type's byte width. -/
theorem toBytesLE_length (n : Nat) : ∀ v : Nat, (toBytesLE n v).length = n := by
  induction n with
  | zero => intro v; rfl
  | succ n ih => intro v; simp [toBytesLE, ih]

/-- Helper: big-endian bytes are the reverse of little-endian bytes. -/
theorem toBytesBE_eq_reverse (n : Nat) : ∀ v : Nat, toBytesBE n v = (toBytesLE n v).reverse := by
  induction n with
  | zero => intro v; rfl
  | succ n ih => intro v; simp [toBytesBE, toBytesLE, ih]

/-- Helper: the big-endian encoding has exactly the type's byte width. -/
theorem toBytesBE_length (n v : Nat) : (toBytesBE n v).length = n := by
  rw [toBytesBE_eq_reverse, List.length_reverse, toBytesLE_length]

/-- Helper: byte `i` of the little-endian encoding is the `i`-th
least-significant base-256 digit of the value. -/
theorem toBytesLE_eq_map (n : Nat) :
    ∀ v : Nat, toBytesLE n v = (List.range n).map (fun i => v / 256 ^ i % 256) := by
  induction n with
  | zero => intro v; rfl
  | succ n ih =>
    intro v
    rw [toBytesLE, ih (v / 256), List.range_succ_eq_map, List.map_cons, List.map_map]
    simp [Function.comp, Nat.div_div_eq_div_mul, pow_succ, Nat.mul_comm]

/-- Helper: dispatching the slice impl through either order runs the element
loop with that same order. -/
theorem slice_dispatch {α : Type} (e : Endianness) (impl : SerializeImpl α)
    (xs : List α) (w : Writer) :
    e.serialize (sliceImpl e impl) xs w = serializeList e impl xs w := by
  cases e <;> rfl

/-- Helper: dispatching the Vec impl delegates to the slice impl. -/
theorem vec_dispatch {α : Type} (e : Endianness) (impl : SerializeImpl α)
    (xs : List α) (w : Writer) :
    e.serialize (vecImpl e impl) xs w = e.serialize (sliceImpl e impl) xs w := by
  cases e <;> rfl

/-- Helper: on a never-failing sink, the element loop concatenates the
elements' individual encodings in order. -/
theorem serializeList_ok {α : Type} (e : Endianness) (impl : SerializeImpl α)
    (enc : α → List Nat)
    (helem : ∀ x bf, e.serialize impl x ⟨bf, none⟩ = WResult.ok ⟨bf ++ enc x, none⟩) :
    ∀ (xs : List α) (buf : List Nat),
      serializeList e impl xs ⟨buf, none⟩ = WResult.ok ⟨buf ++ (xs.map enc).flatten, none⟩ := by
  intro xs
  induction xs with
  | nil => intro buf; simp [serializeList]
  | cons x xs ih =>
    intro buf
    simp only [serializeList, helem]
    rw [ih]
    simp

/-- Helper: with each element costing one write operation, a list of length
`len` consumes exactly `len` units of the sink's budget. -/
theorem serializeList_budget {α : Type} (e : Endianness) (impl : SerializeImpl α)
    (enc : α → List Nat)
    (helem : ∀ x bf c, e.serialize impl x ⟨bf, some (c + 1)⟩
        = WResult.ok ⟨bf ++ enc x, some c⟩) :
    ∀ (xs : List α) (buf : List Nat) (b : Nat),
      serializeList e impl xs ⟨buf, some (xs.length + b)⟩
        = WResult.ok ⟨buf ++ (xs.map enc).flatten, some b⟩ := by
  intro xs
  induction xs with
  | nil => intro buf b; simp [serializeList]
  | cons x xs ih =>
    intro buf b
    have hlen : (x :: xs).length + b = (xs.length + b) + 1 := by
      simp [List.length_cons]; omega
    rw [hlen]
    simp only [serializeList, helem]
    rw [ih]
    simp

/-- Helper: when the sink's budget runs out at element `k`, the loop stops
there, returns the sink's error, and the first `k` elements remain written. -/
theorem serializeList_fail {α : Type} (e : Endianness) (impl : SerializeImpl α)
    (enc : α → List Nat)
    (helem : ∀ x bf c, e.serialize impl x ⟨bf, some (c + 1)⟩
        = WResult.ok ⟨bf ++ enc x, some c⟩)
    (hfail : ∀ x bf, e.serialize impl x ⟨bf, some 0⟩ = WResult.err ⟨bf, some 0⟩) :
    ∀ (xs : List α) (k : Nat) (buf : List Nat), k < xs.length →
      serializeList e impl xs ⟨buf, some k⟩
        = WResult.err ⟨buf ++ ((xs.take k).map enc).flatten, some 0⟩ := by
  intro xs
  induction xs with
  | nil => intro k buf hk; exact absurd hk (by simp)
  | cons x xs ih =>
    intro k buf hk
    cases k with
    | zero => simp only [serializeList, hfail]; simp
    | succ k =>
      simp only [serializeList, helem]
      rw [ih k _ (by simpa using hk)]
      simp

/-- C1: for every multi-byte integer (the `impl_int!` family, covering the
16/32/64/128-bit signed and unsigned types via the byte width `n`), big
order writes exactly the type's `n` bytes most-significant byte first and
little order writes the same bytes least-significant byte first (byte `i`
of the little encoding is the `i`-th least-significant base-256 digit); the
two encodings are each other's exact reversal, and they coincide exactly
when the byte representation is a palindrome — so a non-palindromic
representation makes them differ. -/
theorem int_multibyte_order (n v : Nat) (s : Int) (buf : List Nat) :
    Endianness.big.serialize (uintImpl n) v ⟨buf, none⟩
        = WResult.ok ⟨buf ++ toBytesBE n v, none⟩
  ∧ Endianness.little.serialize (uintImpl n) v ⟨buf, none⟩
        = WResult.ok ⟨buf ++ toBytesLE n v, none⟩
  ∧ Endianness.big.serialize (intImpl n) s ⟨buf, none⟩
        = WResult.ok ⟨buf ++ toBytesBE n (toUnsigned n s), none⟩
  ∧ Endianness.little.serialize (intImpl n) s ⟨buf, none⟩
        = WResult.ok ⟨buf ++ toBytesLE n (toUnsigned n s), none⟩
  ∧ (toBytesLE n v).length = n
  ∧ (toBytesBE n v).length = n
  ∧ toBytesLE n v = (List.range n).map (fun i => v / 256 ^ i % 256)
  ∧ toBytesBE n v = (toBytesLE n v).reverse
  ∧ (toBytesBE n v = toBytesLE n v ↔ (toBytesLE n v).reverse = toBytesLE n v) := by
  refine ⟨rfl, rfl, rfl, rfl, toBytesLE_length n v, toBytesBE_length n v,
    toBytesLE_eq_map n v, toBytesBE_eq_reverse n v, ?_⟩
  rw [toBytesBE_eq_reverse]

/-- C2: the `f32`/`f64` impls serialize exactly the value's bit pattern via
the same-width unsigned integer encoding under the chosen order, and the
spec's three concrete decimal literals (converted to their IEEE-754 bit
patterns by `f32bits`/`f64bits`) produce exactly the spec's bytes. -/
theorem float_bit_pattern (bits32 bits64 : Nat) (e : Endianness) (w : Writer) :
    e.serialize (f32Impl e) bits32 w = e.serialize (uintImpl 4) bits32 w
  ∧ e.serialize (f64Impl e) bits64 w = e.serialize (uintImpl 8) bits64 w
  ∧ f32bits 642613525390625 (10 ^ 12) = 0x4420A744
  ∧ Endianness.big.serialize (f32Impl Endianness.big)
        (f32bits 642613525390625 (10 ^ 12)) ⟨[], none⟩
        = WResult.ok ⟨[0x44, 0x20, 0xA7, 0x44], none⟩
  ∧ f32bits 13370083007812 (10 ^ 10) = 0x44A72044
  ∧ Endianness.little.serialize (f32Impl Endianness.little)
        (f32bits 13370083007812 (10 ^ 10)) ⟨[], none⟩
        = WResult.ok ⟨[0x44, 0x20, 0xA7, 0x44], none⟩
  ∧ f64bits 13105201984283194 (10 ^ 13) = 0x40947A14AEE59440
  ∧ Endianness.big.serialize (f64Impl Endianness.big)
        (f64bits 13105201984283194 (10 ^ 13)) ⟨[], none⟩
        = WResult.ok ⟨[0x40, 0x94, 0x7A, 0x14, 0xAE, 0xE5, 0x94, 0x40], none⟩ := by
  refine ⟨by cases e <;> rfl, by cases e <;> rfl, by decide, by decide, by decide,
    by decide, by decide, by decide⟩

/-- C3: serializing a slice writes the concatenation of the elements'
individual encodings in element order (for any length, hence for 0, 1 and
more elements), using one sink operation per element (a list of length
`len` consumes exactly `len` units of write budget), and serializing a Vec
writes exactly the same bytes as serializing it as a slice. -/
theorem slice_concat {α : Type} (e : Endianness) (impl : SerializeImpl α)
    (enc : α → List Nat) (xs : List α) (buf : List Nat) (b : Nat)
    (helem : ∀ x bf, e.serialize impl x ⟨bf, none⟩ = WResult.ok ⟨bf ++ enc x, none⟩)
    (helem2 : ∀ x bf c, e.serialize impl x ⟨bf, some (c + 1)⟩
        = WResult.ok ⟨bf ++ enc x, some c⟩) :
    e.serialize (sliceImpl e impl) xs ⟨buf, none⟩
        = WResult.ok ⟨buf ++ (xs.map enc).flatten, none⟩
  ∧ e.serialize (vecImpl e impl) xs ⟨buf, none⟩
        = e.serialize (sliceImpl e impl) xs ⟨buf, none⟩
  ∧ e.serialize (sliceImpl e impl) xs ⟨buf, some (xs.length + b)⟩
        = WResult.ok ⟨buf ++ (xs.map enc).flatten, some b⟩ := by
  refine ⟨?_, vec_dispatch e impl xs ⟨buf, none⟩, ?_⟩
  · rw [slice_dispatch]; exact serializeList_ok e impl enc helem xs buf
  · rw [slice_dispatch]; exact serializeList_budget e impl enc helem2 xs buf b

/-- Witness for C3 at the repo's own test vector: two little-endian `u16`
values `0xadba` serialize to `BA AD BA AD`, the Vec path agrees with the
slice path, and the two elements consume exactly two write operations. -/
theorem slice_concat_witness :
    Endianness.little.serialize (sliceImpl Endianness.little (uintImpl 2))
        [0xadba, 0xadba] ⟨[], none⟩
        = WResult.ok ⟨[0xba, 0xad, 0xba, 0xad], none⟩
  ∧ Endianness.little.serialize (vecImpl Endianness.little (uintImpl 2))
        [0xadba, 0xadba] ⟨[], none⟩
        = Endianness.little.serialize (sliceImpl Endianness.little (uintImpl 2))
            [0xadba, 0xadba] ⟨[], none⟩
  ∧ Endianness.little.serialize (sliceImpl Endianness.little (uintImpl 2))
        [0xadba, 0xadba] ⟨[], some 2⟩
        = WResult.ok ⟨[0xba, 0xad, 0xba, 0xad], some 0⟩ :=
  slice_concat Endianness.little (uintImpl 2) (toBytesLE 2) [0xadba, 0xadba] [] 0
    (fun _ _ => rfl) (fun _ _ _ => rfl)

/-- C4: dispatching through the `BigEndian` tag invokes and returns exactly
the value's `serialize_be`, and through the `LittleEndian` tag exactly
`serialize_le`, for every impl, value and sink — the order tag alone
selects the order-specific method. -/
theorem dispatch_static {α : Type} (impl : SerializeImpl α) (v : α) (w : Writer) :
    Endianness.big.serialize impl v w = impl.serialize_be v w
  ∧ Endianness.little.serialize impl v w = impl.serialize_le v w :=
  ⟨rfl, rfl⟩

/-- C5: for a type overriding only the order-agnostic `serialize`, the
defaulted `serialize_be` and `serialize_le` each call `serialize`, so both
orders produce the identical result (same bytes, same outcome) for every
value and every sink. -/
theorem default_order_agnostic {α : Type} (f : α → Writer → WResult) (v : α) (w : Writer) :
    SerializeImpl.serialize_be { serialize := f } v w = f v w
  ∧ SerializeImpl.serialize_le { serialize := f } v w = f v w
  ∧ Endianness.big.serialize { serialize := f } v w
      = Endianness.little.serialize { serialize := f } v w :=
  ⟨rfl, rfl, rfl⟩

/-- C6: under either order, a boolean serializes to the single byte `0x00`
(false) or `0x01` (true), a `u8` to its single raw byte, an `i8` to its
single two's-complement byte (a value below 256); for all three types the
result is identical under big- and little-endian order. -/
theorem single_byte_types (b : Bool) (v : Nat) (s : Int) (e : Endianness)
    (buf : List Nat) (hv : v < 256) :
    e.serialize boolImpl b ⟨buf, none⟩
        = WResult.ok ⟨buf ++ [if b then 1 else 0], none⟩
  ∧ e.serialize u8Impl v ⟨buf, none⟩ = WResult.ok ⟨buf ++ [v], none⟩
  ∧ e.serialize i8Impl s ⟨buf, none⟩ = WResult.ok ⟨buf ++ [toUnsigned 1 s], none⟩
  ∧ toUnsigned 1 s < 256
  ∧ e.serialize boolImpl b ⟨buf, none⟩ = Endianness.big.serialize boolImpl b ⟨buf, none⟩
  ∧ e.serialize u8Impl v ⟨buf, none⟩ = Endianness.big.serialize u8Impl v ⟨buf, none⟩
  ∧ e.serialize i8Impl s ⟨buf, none⟩ = Endianness.big.serialize i8Impl s ⟨buf, none⟩ := by
  have hpow : ((2 : Int) ^ (8 * 1)) = 256 := by norm_num
  have hmod : v % 256 = v := Nat.mod_eq_of_lt hv
  refine ⟨?_, ?_, ?_, ?_, ?_, ?_, ?_⟩
  · cases e <;> rfl
  · cases e <;> simp [Endianness.serialize, u8Impl, Writer.write_all, hmod]
  · cases e <;> rfl
  · unfold toUnsigned; rw [hpow]; omega
  · cases e <;> rfl
  · cases e <;> rfl
  · cases e <;> rfl

/-- Witness for C6 at concrete inputs: true, the `u8` 255 and the `i8` -128
under big order on an empty sink. -/
theorem single_byte_types_witness :
    Endianness.big.serialize boolImpl true ⟨[], none⟩ = WResult.ok ⟨[1], none⟩
  ∧ Endianness.big.serialize u8Impl 255 ⟨[], none⟩ = WResult.ok ⟨[255], none⟩
  ∧ Endianness.big.serialize i8Impl (-128) ⟨[], none⟩ = WResult.ok ⟨[128], none⟩
  ∧ toUnsigned 1 (-128) < 256
  ∧ Endianness.big.serialize boolImpl true ⟨[], none⟩
      = Endianness.big.serialize boolImpl true ⟨[], none⟩
  ∧ Endianness.big.serialize u8Impl 255 ⟨[], none⟩
      = Endianness.big.serialize u8Impl 255 ⟨[], none⟩
  ∧ Endianness.big.serialize i8Impl (-128) ⟨[], none⟩
      = Endianness.big.serialize i8Impl (-128) ⟨[], none⟩ :=
  single_byte_types true 255 (-128) Endianness.big [] (by decide)

/-- C7: when the sink fails at element `k` of a slice (each earlier element
costing one successful write), serialization returns that first failure,
the encodings of elements before `k` remain in the sink, and no element
from `k` onwards is written. -/
theorem slice_first_failure {α : Type} (e : Endianness) (impl : SerializeImpl α)
    (enc : α → List Nat) (xs : List α) (k : Nat) (buf : List Nat)
    (helem2 : ∀ x bf c, e.serialize impl x ⟨bf, some (c + 1)⟩
        = WResult.ok ⟨bf ++ enc x, some c⟩)
    (hfail : ∀ x bf, e.serialize impl x ⟨bf, some 0⟩ = WResult.err ⟨bf, some 0⟩)
    (hk : k < xs.length) :
    e.serialize (sliceImpl e impl) xs ⟨buf, some k⟩
        = WResult.err ⟨buf ++ ((xs.take k).map enc).flatten, some 0⟩ := by
  rw [slice_dispatch]
  exact serializeList_fail e impl enc helem2 hfail xs k buf hk

/-- Witness for C7: three little-endian `u16` elements with budget for one
write fail at the second element, leaving exactly the first element's bytes
`BA AD` in the sink. -/
theorem slice_first_failure_witness :
    Endianness.little.serialize (sliceImpl Endianness.little (uintImpl 2))
        [0xadba, 0xadba, 0xadba] ⟨[], some 1⟩
        = WResult.err ⟨[0xba, 0xad], some 0⟩ :=
  slice_first_failure Endianness.little (uintImpl 2) (toBytesLE 2)
    [0xadba, 0xadba, 0xadba] 1 [] (fun _ _ _ => rfl) (fun _ _ => rfl) (by decide)

/-- C8: an impl that overrides neither `serialize` nor the order-specific
pair (and likewise any impl overriding only the order-specific pair) has
the order-agnostic `serialize` abort with the unreachable panic for every
input, and that panic is distinct from both the ok and the error outcome of
the ordinary I/O channel. -/
theorem default_serialize_panics {α : Type} (g h : α → Writer → WResult)
    (v : α) (w w2 : Writer) :
    SerializeImpl.serialize ({} : SerializeImpl α) v w = WResult.panic
  ∧ SerializeImpl.serialize { serialize_be := g, serialize_le := h } v w = WResult.panic
  ∧ WResult.panic ≠ WResult.ok w2
  ∧ WResult.panic ≠ WResult.err w2 :=
  ⟨rfl, rfl, by simp, by simp⟩

/-- Witness for C8 at a concrete impl (both order-specific methods override
to a plain ok) and concrete sink states. -/
theorem default_serialize_panics_witness :
    SerializeImpl.serialize ({} : SerializeImpl Nat) 0 ⟨[], none⟩ = WResult.panic
  ∧ SerializeImpl.serialize
        { serialize_be := fun _ w => WResult.ok w, serialize_le := fun _ w => WResult.ok w }
        0 ⟨[], none⟩ = WResult.panic
  ∧ WResult.panic ≠ WResult.ok ⟨[], none⟩
  ∧ WResult.panic ≠ WResult.err ⟨[], none⟩ :=
  default_serialize_panics (fun _ w => WResult.ok w) (fun _ w => WResult.ok w)
    0 ⟨[], none⟩ ⟨[], none⟩

/-- C9: the order-tag set is closed — every order tag is `big` or `little`,
and the two tags are distinct, so exactly two tags satisfy the dispatch
contract (the Rust build-time sealing via `private::Sealed` is captured by
the closedness of the inductive type). -/
theorem endianness_sealed :
    (∀ e : Endianness, e = Endianness.big ∨ e = Endianness.little)
  ∧ Endianness.big ≠ Endianness.little :=
  ⟨fun e => by cases e <;> simp, by simp⟩

/-- C10: for every byte width and both orders, serializing a signed integer
writes exactly the bytes of serializing its same-width unsigned
two's-complement reinterpretation; in particular -1 as a 16-bit signed
integer encodes as `FF FF` under both orders. -/
theorem signed_twos_complement (n : Nat) (s : Int) (e : Endianness) (w : Writer) :
    e.serialize (intImpl n) s w = e.serialize (uintImpl n) (toUnsigned n s) w
  ∧ Endianness.big.serialize (intImpl 2) (-1) ⟨[], none⟩
      = WResult.ok ⟨[255, 255], none⟩
  ∧ Endianness.little.serialize (intImpl 2) (-1) ⟨[], none⟩
      = WResult.ok ⟨[255, 255], none⟩ :=
  ⟨by cases e <;> rfl, by decide, by decide⟩

end Endio
